import Mathlib

/-!
A verification development of the melonDS DS screen compositor and cursor
overlay engine, shallowly embedded from
src/libretro/render/software.cpp and src/libretro/glsl/melondsds.frag.

Pixels are 32-bit ARGB values, modelled as natural numbers; pixel
coordinates are integers.  C signed division and remainder truncate
toward zero, so they are embedded as Int.tdiv and Int.tmod.
-/

namespace MelonDsDs

/-- The floor-division helper defined inside DrawCursor
(software.cpp lines 175-178):
int q = a / b, r = a % b; return (r && (a < 0)) ? (q - 1) : q. -/
def floor_div (a b : ℤ) : ℤ :=
  let q := Int.tdiv a b
  let r := Int.tmod a b
  if r ≠ 0 ∧ a < 0 then q - 1 else q

/-- Result of classifying one cell of the 5x5 base cursor grid:
opaque white fill, opaque black ring, or left untouched. -/
inductive CursorClass where
  | white
  | black
  | untouched
deriving DecidableEq

/-- The CPU-side cell classification from the DrawCursor loop body
(software.cpp lines 191-207): white fill when both coordinates are
within 1 of the center, corners skipped, black ring otherwise on the
outer band. -/
def cpuClassify (bx byv : ℤ) : CursorClass :=
  let abx := |bx|
  let aby := |byv|
  let inWhite3x3 := abx ≤ 1 ∧ aby ≤ 1
  let isCorner := abx = 2 ∧ aby = 2
  let inRing := ¬isCorner ∧ ((aby = 2 ∧ abx ≤ 1) ∨ (abx = 2 ∧ aby ≤ 1))
  if inWhite3x3 then CursorClass.white
  else if inRing then CursorClass.black
  else CursorClass.untouched

/-- The fragment-shader cell classification over buckets in [0,4]
(melondsds.frag lines 42-56): dx = bx - 2, dy = by - 2, white when both
absolute offsets are at most 1, corners are the meet of an outer row
and an outer column, ring otherwise on the outer band. -/
def shaderClassify (bx byv : ℤ) : CursorClass :=
  let dx := bx - 2
  let dy := byv - 2
  let adx := |dx|
  let ady := |dy|
  let inWhite3x3 := adx ≤ 1 ∧ ady ≤ 1
  let onOuterRow := byv = 0 ∨ byv = 4
  let onOuterCol := bx = 0 ∨ bx = 4
  let isCorner := onOuterRow ∧ onOuterCol
  let inRing := ¬isCorner ∧ ((onOuterRow ∧ adx ≤ 1) ∨ (onOuterCol ∧ ady ≤ 1))
  if inWhite3x3 then CursorClass.white
  else if inRing then CursorClass.black
  else CursorClass.untouched

/-- A pixel buffer, addressed by integer x and y coordinates. -/
def Buf : Type := ℤ → ℤ → ℕ

/-- Opaque white in ARGB8888, written for fill cells. -/
def whitePx : ℕ := 0xFFFFFFFF

/-- Opaque black in ARGB8888, written for ring cells. -/
def blackPx : ℕ := 0xFF000000

/-- The clipped iteration ranges of the DrawCursor double loop
(software.cpp lines 169-172): the scaled 5x5 base area around the
center, clipped to the buffer extents. -/
def cursorLoopX (W cx scale : ℤ) : Finset ℤ :=
  Finset.Icc (max 0 (cx - 2 * scale)) (min (W - 1) (cx + 2 * scale + (scale - 1)))

/-- The clipped y iteration range of the DrawCursor double loop,
mirror image of cursorLoopX for the vertical axis. -/
def cursorLoopY (H cy scale : ℤ) : Finset ℤ :=
  Finset.Icc (max 0 (cy - 2 * scale)) (min (H - 1) (cy + 2 * scale + (scale - 1)))

/-- The set of coordinates the DrawCursor double loop visits. -/
def cursorLoopRange (W H cx cy scale : ℤ) : Finset (ℤ × ℤ) :=
  cursorLoopX W cx scale ×ˢ cursorLoopY H cy scale

/-- The pixel-level effect of the DrawCursor double loop
(software.cpp lines 167-209).  Each iteration writes at most its own
pixel, so the loop is embedded pointwise: a visited pixel takes the
color of its base cell classification, with untouched cells and
unvisited pixels keeping the prior buffer value. -/
def drawCursorCore (W H cx cy scale : ℤ) (old : Buf) : Buf :=
  fun x y =>
    if x ∈ cursorLoopX W cx scale ∧ y ∈ cursorLoopY H cy scale then
      match cpuClassify (floor_div (x - cx) scale) (floor_div (y - cy) scale) with
      | CursorClass.white => whitePx
      | CursorClass.black => blackPx
      | CursorClass.untouched => old x y
    else old x y

/- Facts about Int.tmod needed for the floor-division proofs. -/

/-- Negating the dividend negates the truncating remainder. -/
theorem tmod_neg_left (a b : ℤ) : (-a).tmod b = -(a.tmod b) := by
  rw [Int.tmod_def, Int.tmod_def, Int.neg_tdiv]
  ring

/-- For a negative dividend and positive divisor the truncating
remainder lies in the half-open interval (-b, 0]. -/
theorem tmod_bounds_of_neg {a b : ℤ} (ha : a < 0) (hb : 0 < b) :
    -b < a.tmod b ∧ a.tmod b ≤ 0 := by
  have hn : (0:ℤ) ≤ -a := by omega
  have h2 : (-a).tmod b = -(a.tmod b) := tmod_neg_left a b
  have h3 : (-a).tmod b = (-a) % b := Int.tmod_eq_emod hn hb.le
  have h4 : 0 ≤ (-a) % b := Int.emod_nonneg _ (by omega)
  have h5 : (-a) % b < b := Int.emod_lt_of_pos _ hb
  omega

/-- The floor-division helper satisfies the defining sandwich property
of mathematical floor division for every positive divisor. -/
theorem floor_div_sandwich (a b : ℤ) (hb : 0 < b) :
    floor_div a b * b ≤ a ∧ a < (floor_div a b + 1) * b := by
  have hqr : b * Int.tdiv a b + Int.tmod a b = a := Int.tdiv_add_tmod a b
  by_cases hcase : Int.tmod a b ≠ 0 ∧ a < 0
  · have hfd : floor_div a b = Int.tdiv a b - 1 := by
      simp only [floor_div, if_pos hcase]
    have hbd := tmod_bounds_of_neg hcase.2 hb
    have hneg : a.tmod b < 0 := lt_of_le_of_ne hbd.2 hcase.1
    constructor
    · rw [hfd]; nlinarith [hbd.1]
    · rw [hfd]; nlinarith [hbd.1]
  · have hfd : floor_div a b = Int.tdiv a b := by
      simp only [floor_div, if_neg hcase]
    rcases not_and_or.mp hcase with hr | ha
    · have hr0 : Int.tmod a b = 0 := not_not.mp hr
      constructor
      · rw [hfd]; nlinarith
      · rw [hfd]; nlinarith
    · have ha0 : 0 ≤ a := by omega
      have h3 : a.tmod b = a % b := Int.tmod_eq_emod ha0 hb.le
      have h4 : 0 ≤ a % b := Int.emod_nonneg _ (by omega)
      have h5 : a % b < b := Int.emod_lt_of_pos _ hb
      constructor
      · rw [hfd]; nlinarith
      · rw [hfd]; nlinarith

/-- Floor division is determined by the sandwich property: any quotient
whose scaled interval contains the dividend is the floor quotient. -/
theorem floor_div_unique {a b q : ℤ} (hb : 0 < b)
    (h1 : q * b ≤ a) (h2 : a < (q + 1) * b) : floor_div a b = q := by
  obtain ⟨l, r⟩ := floor_div_sandwich a b hb
  have hlt1 : floor_div a b < q + 1 := by
    have := lt_of_le_of_lt l h2
    exact lt_of_mul_lt_mul_right this hb.le
  have hlt2 : q < floor_div a b + 1 := by
    have := lt_of_le_of_lt h1 r
    exact lt_of_mul_lt_mul_right this hb.le
  omega

/-- Interval characterization of the floor-division helper. -/
theorem floor_div_eq_iff {a b q : ℤ} (hb : 0 < b) :
    floor_div a b = q ↔ q * b ≤ a ∧ a < (q + 1) * b := by
  constructor
  · rintro rfl
    exact floor_div_sandwich a b hb
  · rintro ⟨h1, h2⟩
    exact floor_div_unique hb h1 h2

/-- C3: the floor-division helper used by DrawCursor computes true
mathematical floor division: for all integers a and positive b,
floor_div a b * b is at most a and a is below (floor_div a b + 1) * b;
in particular floor_div (-1) 3 = -1 and floor_div (-4) 3 = -2. -/
theorem floor_div_is_floor :
    (∀ a b : ℤ, 0 < b → floor_div a b * b ≤ a ∧ a < (floor_div a b + 1) * b) ∧
    floor_div (-1) 3 = -1 ∧ floor_div (-4) 3 = -2 := by
  refine ⟨fun a b hb => floor_div_sandwich a b hb, by decide, by decide⟩

/-- Concrete instance of the floor-division property at a = -7, b = 3. -/
theorem floor_div_is_floor_witness :
    floor_div (-7) 3 * 3 ≤ -7 ∧ (-7:ℤ) < (floor_div (-7) 3 + 1) * 3 :=
  floor_div_is_floor.1 (-7) 3 (by decide)

/-- C1: the CPU cursor classification and the fragment-shader cursor
classification agree on every one of the 25 cells of the 5x5 grid: for
buckets bx, by in [0,4] the shader rule yields the same result as the
CPU rule at base coordinates (bx - 2, by - 2). -/
theorem cpu_shader_classify_agree :
    ∀ bx ∈ Finset.Icc (0:ℤ) 4, ∀ byv ∈ Finset.Icc (0:ℤ) 4,
      shaderClassify bx byv = cpuClassify (bx - 2) (byv - 2) := by
  decide

/-- Concrete instance of the classification agreement at bucket (0, 3),
a ring cell of the left column. -/
theorem cpu_shader_classify_agree_witness :
    (0:ℤ) ∈ Finset.Icc (0:ℤ) 4 ∧ (3:ℤ) ∈ Finset.Icc (0:ℤ) 4 ∧
      shaderClassify 0 3 = cpuClassify (0 - 2) (3 - 2) :=
  ⟨by decide, by decide,
    cpu_shader_classify_agree 0 (by decide) 3 (by decide)⟩

/- Counting machinery for the scaled cursor footprint.  The scaled 5x5
base area decomposes into 25 cells of s pixels per axis, and the cell
of a pixel is recovered by the floor-division helper. -/

/-- Destination pixels of one base cell along one axis: base cell b at
scale s around center c spans c + b * s .. c + (b + 1) * s - 1
(software.cpp line 168 comment). -/
def cell1D (c s b : ℤ) : Finset ℤ := Finset.Icc (c + b * s) (c + (b + 1) * s - 1)

/-- Destination pixels of the whole 5-cell band along one axis. -/
def box1D (c s : ℤ) : Finset ℤ := Finset.Icc (c - 2 * s) (c + 3 * s - 1)

/-- The 25 base cells of the cursor grid. -/
def cellGrid : Finset (ℤ × ℤ) := Finset.Icc (-2 : ℤ) 2 ×ˢ Finset.Icc (-2 : ℤ) 2

/-- The scaled 5s-by-5s destination box of the cursor. -/
def box2D (cx cy s : ℤ) : Finset (ℤ × ℤ) := box1D cx s ×ˢ box1D cy s

/-- A pixel lies in the destination range of base cell b exactly when
floor division maps it back to b. -/
theorem mem_cell1D {c s b x : ℤ} (hs : 0 < s) :
    x ∈ cell1D c s b ↔ floor_div (x - c) s = b := by
  rw [cell1D, Finset.mem_Icc, floor_div_eq_iff hs]
  constructor
  · rintro ⟨h1, h2⟩
    exact ⟨by linarith, by linarith⟩
  · rintro ⟨h1, h2⟩
    have h2' := Int.lt_iff_add_one_le.mp h2
    exact ⟨by linarith, by linarith⟩

/-- The 5-cell band along one axis is the disjoint union of the five
cell ranges. -/
theorem box1D_eq_biUnion (c s : ℤ) (hs : 0 < s) :
    box1D c s = (Finset.Icc (-2 : ℤ) 2).biUnion (cell1D c s) := by
  ext x
  simp only [Finset.mem_biUnion, Finset.mem_Icc, box1D]
  constructor
  · rintro ⟨h1, h2⟩
    refine ⟨floor_div (x - c) s, ⟨?_, ?_⟩, (mem_cell1D hs).mpr rfl⟩
    · by_contra hlt
      push_neg at hlt
      have hle : floor_div (x - c) s + 1 ≤ -2 := by omega
      have hsw := (floor_div_sandwich (x - c) s hs).2
      have hmul : (floor_div (x - c) s + 1) * s ≤ -2 * s :=
        mul_le_mul_of_nonneg_right hle hs.le
      linarith
    · by_contra hlt
      push_neg at hlt
      have hle : (3:ℤ) ≤ floor_div (x - c) s := by omega
      have hsw := (floor_div_sandwich (x - c) s hs).1
      have hmul : (3:ℤ) * s ≤ floor_div (x - c) s * s :=
        mul_le_mul_of_nonneg_right hle hs.le
      linarith
  · rintro ⟨b, ⟨hb1, hb2⟩, hx⟩
    rw [mem_cell1D hs] at hx
    obtain ⟨l, r⟩ := floor_div_sandwich (x - c) s hs
    rw [hx] at l r
    have hmul1 : (-2:ℤ) * s ≤ b * s := mul_le_mul_of_nonneg_right hb1 hs.le
    have hb2' : b + 1 ≤ 3 := by omega
    have hmul2 : (b + 1) * s ≤ 3 * s := mul_le_mul_of_nonneg_right hb2' hs.le
    have r' := Int.lt_iff_add_one_le.mp (lt_of_lt_of_le r hmul2)
    exact ⟨by linarith, by linarith⟩

/-- Each scaled cell range holds exactly s pixels. -/
theorem cell1D_card (c s b : ℤ) : (cell1D c s b).card = s.toNat := by
  rw [cell1D, Int.card_Icc]
  congr 1
  ring

/-- Distinct base cells have disjoint destination rectangles. -/
theorem cell2D_disjoint (cx cy s : ℤ) (hs : 0 < s) :
    ∀ p ∈ cellGrid, ∀ q ∈ cellGrid, p ≠ q →
      Disjoint (cell1D cx s p.1 ×ˢ cell1D cy s p.2)
        (cell1D cx s q.1 ×ˢ cell1D cy s q.2) := by
  intro p _ q _ hpq
  rw [Finset.disjoint_left]
  rintro ⟨x, y⟩ hxy hxy'
  rw [Finset.mem_product] at hxy hxy'
  apply hpq
  have e1 := (mem_cell1D hs).mp hxy.1
  have e2 := (mem_cell1D hs).mp hxy.2
  have e1' := (mem_cell1D hs).mp hxy'.1
  have e2' := (mem_cell1D hs).mp hxy'.2
  exact Prod.ext (e1.symm.trans e1') (e2.symm.trans e2')

/-- The scaled box is the disjoint union of the 25 cell rectangles. -/
theorem box2D_eq_biUnion (cx cy s : ℤ) (hs : 0 < s) :
    box2D cx cy s
      = cellGrid.biUnion (fun b => cell1D cx s b.1 ×ˢ cell1D cy s b.2) := by
  ext p
  simp only [box2D, cellGrid, Finset.mem_product, Finset.mem_biUnion]
  rw [box1D_eq_biUnion cx s hs, box1D_eq_biUnion cy s hs]
  simp only [Finset.mem_biUnion, Finset.mem_product]
  constructor
  · rintro ⟨⟨b1, hb1, hx⟩, ⟨b2, hb2, hy⟩⟩
    exact ⟨(b1, b2), ⟨hb1, hb2⟩, hx, hy⟩
  · rintro ⟨b, ⟨hb1, hb2⟩, hx, hy⟩
    exact ⟨⟨b.1, hb1, hx⟩, ⟨b.2, hb2, hy⟩⟩

/-- Pixel count of a cell-level predicate over the scaled box: each
satisfying base cell contributes s * s pixels. -/
theorem count2D (cx cy s : ℤ) (hs : 0 < s) (Q : ℤ → ℤ → Prop)
    [inst : ∀ a b, Decidable (Q a b)] :
    ((box2D cx cy s).filter
        (fun p => Q (floor_div (p.1 - cx) s) (floor_div (p.2 - cy) s))).card
      = (cellGrid.filter (fun b => Q b.1 b.2)).card * (s.toNat * s.toNat) := by
  rw [box2D_eq_biUnion cx cy s hs, Finset.filter_biUnion]
  rw [Finset.card_biUnion (fun p hp q hq hpq =>
    Finset.disjoint_filter_filter (cell2D_disjoint cx cy s hs p hp q hq hpq))]
  have hpiece : ∀ b ∈ cellGrid,
      ((cell1D cx s b.1 ×ˢ cell1D cy s b.2).filter
        (fun p => Q (floor_div (p.1 - cx) s) (floor_div (p.2 - cy) s))).card
      = if Q b.1 b.2 then s.toNat * s.toNat else 0 := by
    intro b _
    by_cases hQ : Q b.1 b.2
    · rw [if_pos hQ, Finset.filter_true_of_mem, Finset.card_product,
        cell1D_card, cell1D_card]
      rintro ⟨x, y⟩ hxy
      rw [Finset.mem_product] at hxy
      rw [(mem_cell1D hs).mp hxy.1, (mem_cell1D hs).mp hxy.2]
      exact hQ
    · rw [if_neg hQ, Finset.filter_false_of_mem, Finset.card_empty]
      rintro ⟨x, y⟩ hxy
      rw [Finset.mem_product] at hxy
      rw [(mem_cell1D hs).mp hxy.1, (mem_cell1D hs).mp hxy.2]
      exact hQ
  rw [Finset.sum_congr rfl hpiece, ← Finset.sum_filter, Finset.sum_const,
    smul_eq_mul]

/-- Under the box-inside-buffer hypotheses the clipping max and min of
the x loop bound are inert. -/
theorem cursorLoopX_eq_box1D {W cx s : ℤ}
    (h0 : 0 ≤ cx - 2 * s) (hW : cx + 3 * s ≤ W) :
    cursorLoopX W cx s = box1D cx s := by
  rw [cursorLoopX, box1D]
  congr 1
  · omega
  · omega

/-- Under the box-inside-buffer hypotheses the clipping max and min of
the y loop bound are inert. -/
theorem cursorLoopY_eq_box1D {H cy s : ℤ}
    (h0 : 0 ≤ cy - 2 * s) (hH : cy + 3 * s ≤ H) :
    cursorLoopY H cy s = box1D cy s := by
  rw [cursorLoopY, box1D]
  congr 1
  · omega
  · omega

/-- Outside the clipped loop range DrawCursor leaves the pixel as is. -/
theorem drawCursorCore_out {W H cx cy s : ℤ} (old : Buf) {x y : ℤ}
    (h : ¬(x ∈ cursorLoopX W cx s ∧ y ∈ cursorLoopY H cy s)) :
    drawCursorCore W H cx cy s old x y = old x y := by
  simp only [drawCursorCore]
  rw [if_neg h]

/-- Inside the box, when the box is fully inside the buffer, the new
pixel is the color of the classified base cell, or the old pixel for
an untouched cell. -/
theorem drawCursorCore_in_box {W H cx cy s : ℤ} (old : Buf)
    (hx0 : 0 ≤ cx - 2 * s) (hxW : cx + 3 * s ≤ W)
    (hy0 : 0 ≤ cy - 2 * s) (hyH : cy + 3 * s ≤ H)
    {x y : ℤ} (hx : x ∈ box1D cx s) (hy : y ∈ box1D cy s) :
    drawCursorCore W H cx cy s old x y
      = match cpuClassify (floor_div (x - cx) s) (floor_div (y - cy) s) with
        | CursorClass.white => whitePx
        | CursorClass.black => blackPx
        | CursorClass.untouched => old x y := by
  simp only [drawCursorCore]
  rw [cursorLoopX_eq_box1D hx0 hxW, cursorLoopY_eq_box1D hy0 hyH,
    if_pos ⟨hx, hy⟩]

/-- When the prior buffer holds neither cursor color, the new pixel
value inside the box determines the classification of its cell. -/
theorem drawCursorCore_value_iff {W H cx cy s : ℤ} (old : Buf)
    (hx0 : 0 ≤ cx - 2 * s) (hxW : cx + 3 * s ≤ W)
    (hy0 : 0 ≤ cy - 2 * s) (hyH : cy + 3 * s ≤ H)
    (hold : ∀ x y, old x y ≠ whitePx ∧ old x y ≠ blackPx)
    {x y : ℤ} (hx : x ∈ box1D cx s) (hy : y ∈ box1D cy s) :
    (drawCursorCore W H cx cy s old x y = whitePx
      ↔ cpuClassify (floor_div (x - cx) s) (floor_div (y - cy) s)
          = CursorClass.white) ∧
    (drawCursorCore W H cx cy s old x y = blackPx
      ↔ cpuClassify (floor_div (x - cx) s) (floor_div (y - cy) s)
          = CursorClass.black) ∧
    (drawCursorCore W H cx cy s old x y = old x y
      ↔ cpuClassify (floor_div (x - cx) s) (floor_div (y - cy) s)
          = CursorClass.untouched) := by
  rw [drawCursorCore_in_box old hx0 hxW hy0 hyH hx hy]
  rcases hc : cpuClassify (floor_div (x - cx) s) (floor_div (y - cy) s) with _ | _ | _
  · refine ⟨by simp, ?_, ?_⟩
    · simp only [iff_false, ne_eq, reduceCtorEq]
      exact fun h => absurd h (by decide)
    · simp only [iff_false, reduceCtorEq]
      exact fun h => absurd h.symm (hold x y).1
  · refine ⟨?_, by simp, ?_⟩
    · simp only [iff_false, reduceCtorEq]
      exact fun h => absurd h (by decide)
    · simp only [iff_false, reduceCtorEq]
      exact fun h => absurd h.symm (hold x y).2
  · refine ⟨?_, ?_, by simp⟩
    · simp only [iff_false, reduceCtorEq]
      exact fun h => absurd h (hold x y).1
    · simp only [iff_false, reduceCtorEq]
      exact fun h => absurd h (hold x y).2

/-- Nine of the 25 base cells classify as white fill. -/
theorem cellGrid_white_card :
    (cellGrid.filter
      (fun b => cpuClassify b.1 b.2 = CursorClass.white)).card = 9 := by
  decide

/-- Twelve of the 25 base cells classify as black ring. -/
theorem cellGrid_black_card :
    (cellGrid.filter
      (fun b => cpuClassify b.1 b.2 = CursorClass.black)).card = 12 := by
  decide

/-- Four of the 25 base cells (the corners) are left untouched. -/
theorem cellGrid_untouched_card :
    (cellGrid.filter
      (fun b => cpuClassify b.1 b.2 = CursorClass.untouched)).card = 4 := by
  decide

/-- Twenty-one of the 25 base cells receive a color. -/
theorem cellGrid_colored_card :
    (cellGrid.filter
      (fun b => ¬cpuClassify b.1 b.2 = CursorClass.untouched)).card = 21 := by
  decide

/-- C2: with the scaled 5x5 cursor box fully inside the buffer and a
prior buffer holding neither cursor color, DrawCursor writes opaque
white to exactly 9 s^2 pixels and opaque black to exactly 12 s^2
pixels, changes exactly 21 s^2 pixels in total, leaves exactly 4 s^2
box pixels (the corner cells) untouched, and leaves every pixel
outside the 5s-by-5s box untouched. -/
theorem drawCursor_footprint (W H cx cy s : ℤ) (old : Buf)
    (hs : 1 ≤ s)
    (hx0 : 0 ≤ cx - 2 * s) (hxW : cx + 3 * s ≤ W)
    (hy0 : 0 ≤ cy - 2 * s) (hyH : cy + 3 * s ≤ H)
    (hold : ∀ x y, old x y ≠ whitePx ∧ old x y ≠ blackPx) :
    ((box2D cx cy s).filter
        (fun p => drawCursorCore W H cx cy s old p.1 p.2 = whitePx)).card
      = 9 * (s.toNat * s.toNat) ∧
    ((box2D cx cy s).filter
        (fun p => drawCursorCore W H cx cy s old p.1 p.2 = blackPx)).card
      = 12 * (s.toNat * s.toNat) ∧
    ((box2D cx cy s).filter
        (fun p => drawCursorCore W H cx cy s old p.1 p.2 ≠ old p.1 p.2)).card
      = 21 * (s.toNat * s.toNat) ∧
    ((box2D cx cy s).filter
        (fun p => drawCursorCore W H cx cy s old p.1 p.2 = old p.1 p.2)).card
      = 4 * (s.toNat * s.toNat) ∧
    (∀ p ∈ box2D cx cy s,
      (drawCursorCore W H cx cy s old p.1 p.2 = old p.1 p.2
        ↔ cpuClassify (floor_div (p.1 - cx) s) (floor_div (p.2 - cy) s)
            = CursorClass.untouched)) ∧
    (∀ x y, (x, y) ∉ box2D cx cy s →
      drawCursorCore W H cx cy s old x y = old x y) := by
  have hs' : (0:ℤ) < s := by omega
  have hmem : ∀ p ∈ box2D cx cy s, p.1 ∈ box1D cx s ∧ p.2 ∈ box1D cy s := by
    intro p hp
    rwa [box2D, Finset.mem_product] at hp
  refine ⟨?_, ?_, ?_, ?_, ?_, ?_⟩
  · rw [Finset.filter_congr (fun p hp =>
      ((drawCursorCore_value_iff old hx0 hxW hy0 hyH hold
        (hmem p hp).1 (hmem p hp).2).1)),
      count2D cx cy s hs' (fun a b => cpuClassify a b = CursorClass.white),
      cellGrid_white_card]
  · rw [Finset.filter_congr (fun p hp =>
      ((drawCursorCore_value_iff old hx0 hxW hy0 hyH hold
        (hmem p hp).1 (hmem p hp).2).2.1)),
      count2D cx cy s hs' (fun a b => cpuClassify a b = CursorClass.black),
      cellGrid_black_card]
  · rw [Finset.filter_congr (fun p hp => not_congr
      ((drawCursorCore_value_iff old hx0 hxW hy0 hyH hold
        (hmem p hp).1 (hmem p hp).2).2.2)),
      count2D cx cy s hs' (fun a b => ¬cpuClassify a b = CursorClass.untouched),
      cellGrid_colored_card]
  · rw [Finset.filter_congr (fun p hp =>
      ((drawCursorCore_value_iff old hx0 hxW hy0 hyH hold
        (hmem p hp).1 (hmem p hp).2).2.2)),
      count2D cx cy s hs' (fun a b => cpuClassify a b = CursorClass.untouched),
      cellGrid_untouched_card]
  · intro p hp
    exact (drawCursorCore_value_iff old hx0 hxW hy0 hyH hold
      (hmem p hp).1 (hmem p hp).2).2.2
  · intro x y h
    apply drawCursorCore_out
    rw [cursorLoopX_eq_box1D hx0 hxW, cursorLoopY_eq_box1D hy0 hyH]
    intro hc
    exact h (by rw [box2D, Finset.mem_product]; exact hc)

/-- Concrete instance of the footprint counts at scale 1, center (2,2),
in a 5x5 buffer over a zeroed prior buffer: 9 white pixels and 12 black
pixels. -/
theorem drawCursor_footprint_witness :
    ((box2D 2 2 1).filter
        (fun p => drawCursorCore 5 5 2 2 1 (fun _ _ => 0) p.1 p.2 = whitePx)).card
      = 9 * ((1:ℤ).toNat * (1:ℤ).toNat) ∧
    ((box2D 2 2 1).filter
        (fun p => drawCursorCore 5 5 2 2 1 (fun _ _ => 0) p.1 p.2 = blackPx)).card
      = 12 * ((1:ℤ).toNat * (1:ℤ).toNat) := by
  have h := drawCursor_footprint 5 5 2 2 1 (fun _ _ => 0)
    (by decide) (by decide) (by decide) (by decide) (by decide)
    (fun _ _ => ⟨(by decide : (0:ℕ) ≠ whitePx), (by decide : (0:ℕ) ≠ blackPx)⟩)
  exact ⟨h.1, h.2.1⟩

/-- C8: every coordinate the DrawCursor double loop visits lies inside
the buffer extents, because the iteration bounding box is clipped with
max against 0 and min against the buffer size before any write; and no
pixel outside the clipped range is modified. -/
theorem drawCursor_writes_in_bounds (W H cx cy scale : ℤ) (old : Buf) :
    (∀ p ∈ cursorLoopRange W H cx cy scale,
        0 ≤ p.1 ∧ p.1 ≤ W - 1 ∧ 0 ≤ p.2 ∧ p.2 ≤ H - 1) ∧
    (∀ x y, (x, y) ∉ cursorLoopRange W H cx cy scale →
        drawCursorCore W H cx cy scale old x y = old x y) := by
  constructor
  · rintro ⟨x, y⟩ hp
    rw [cursorLoopRange, Finset.mem_product] at hp
    obtain ⟨hx, hy⟩ := hp
    rw [cursorLoopX, Finset.mem_Icc] at hx
    rw [cursorLoopY, Finset.mem_Icc] at hy
    dsimp only at hx hy ⊢
    omega
  · intro x y h
    apply drawCursorCore_out
    intro hc
    exact h (by rw [cursorLoopRange, Finset.mem_product]; exact hc)

/-- Concrete instance of the write-bounds property: the visited
coordinate (2, 2) in a 5x5 buffer at scale 1 is in bounds. -/
theorem drawCursor_writes_in_bounds_witness :
    (0:ℤ) ≤ 2 ∧ (2:ℤ) ≤ 5 - 1 ∧ (0:ℤ) ≤ 2 ∧ (2:ℤ) ≤ 5 - 1 :=
  (drawCursor_writes_in_bounds 5 5 2 2 1 (fun _ _ => 0)).1 (2, 2) (by decide)

/-- Modelled from the spec: the closed set of layout variants (spec
section 3, ScreenLayout).  The enum is declared outside the excerpted
sources; variant names follow their uses in software.cpp. -/
inductive ScreenLayout where
  | TopOnly
  | BottomOnly
  | TopBottom
  | BottomTop
  | HybridTop
  | FlippedHybridTop
  | HybridBottom
  | FlippedHybridBottom
  | LargescreenTop
  | FlippedLargescreenTop
  | LargescreenBottom
  | FlippedLargescreenBottom
deriving DecidableEq

/-- Modelled from the spec: the HybridSideScreenDisplay enumeration
governing whether the non-magnified companion screen is drawn. -/
inductive HybridSideScreenDisplay where
  | Both
  | FocusedOnly
deriving DecidableEq

/-- One of the two emulated screens. -/
inductive Screen where
  | top
  | bottom
deriving DecidableEq

/-- Modelled from the spec: the IsHybridLayout helper used by the
CombineScreens dispatch; true exactly on the hybrid variants. -/
def IsHybridLayout : ScreenLayout → Bool
  | ScreenLayout.HybridTop => true
  | ScreenLayout.FlippedHybridTop => true
  | ScreenLayout.HybridBottom => true
  | ScreenLayout.FlippedHybridBottom => true
  | _ => false

/-- Modelled from the spec: the IsLargeScreenLayout helper used by the
CombineScreens dispatch; true exactly on the large-screen variants. -/
def IsLargeScreenLayout : ScreenLayout → Bool
  | ScreenLayout.LargescreenTop => true
  | ScreenLayout.FlippedLargescreenTop => true
  | ScreenLayout.LargescreenBottom => true
  | ScreenLayout.FlippedLargescreenBottom => true
  | _ => false

/-- The cursor scale chosen inside DrawCursor (software.cpp lines
150-156): the hybrid ratio for the two large-screen bottom variants,
1 for every other layout. -/
def cursorScale (layout : ScreenLayout) (ratioHybrid : ℤ) : ℤ :=
  if layout = ScreenLayout.LargescreenBottom ∨
      layout = ScreenLayout.FlippedLargescreenBottom then
    ratioHybrid
  else
    1

/-- The magnified (primary) screen of a layout, as selected by the
CombineScreens dispatch (software.cpp lines 224 and 246); none for the
ordinary layouts. -/
def primaryScreen (layout : ScreenLayout) : Option Screen :=
  if IsHybridLayout layout then
    if layout = ScreenLayout.HybridTop ∨ layout = ScreenLayout.FlippedHybridTop then
      some Screen.top
    else
      some Screen.bottom
  else if IsLargeScreenLayout layout then
    if layout = ScreenLayout.LargescreenTop ∨
        layout = ScreenLayout.FlippedLargescreenTop then
      some Screen.top
    else
      some Screen.bottom
  else
    none

/-- The non-primary companion screen of a magnified layout. -/
def companionScreen (layout : ScreenLayout) : Option Screen :=
  (primaryScreen layout).map fun s =>
    match s with
    | Screen.top => Screen.bottom
    | Screen.bottom => Screen.top

/-- C5 counterexample: HybridBottom is a hybrid variant whose primary
is the bottom screen, yet at hybrid ratio 2 DrawCursor picks cursor
scale 1, not the ratio. -/
theorem cursorScale_hybridBottom_counterexample :
    primaryScreen ScreenLayout.HybridBottom = some Screen.bottom ∧
    IsHybridLayout ScreenLayout.HybridBottom = true ∧
    cursorScale ScreenLayout.HybridBottom 2 = 1 ∧
    cursorScale ScreenLayout.HybridBottom 2 ≠ 2 := by
  refine ⟨rfl, rfl, rfl, by decide⟩

/-- C5 amended: the cursor scale equals the hybrid ratio exactly for
the large-screen variants whose primary is the bottom screen, and
equals 1 for every other layout, including the hybrid variants whose
primary is the bottom screen. -/
theorem cursorScale_spec (layout : ScreenLayout) (r : ℤ) :
    (IsLargeScreenLayout layout = true ∧ primaryScreen layout = some Screen.bottom →
      cursorScale layout r = r) ∧
    (¬(IsLargeScreenLayout layout = true ∧ primaryScreen layout = some Screen.bottom) →
      cursorScale layout r = 1) := by
  cases layout <;>
    refine ⟨fun h => ?_, fun h => ?_⟩ <;>
      simp_all [cursorScale, IsLargeScreenLayout, primaryScreen, IsHybridLayout]

/-- Concrete instance of the amended scale rule at LargescreenBottom
with ratio 3. -/
theorem cursorScale_spec_witness :
    cursorScale ScreenLayout.LargescreenBottom 3 = 3 :=
  (cursorScale_spec ScreenLayout.LargescreenBottom 3).1 (by decide)

/-- Which precomputed translation a compositing copy targets. -/
inductive TransTag where
  | topT
  | bottomT
  | hybridT
deriving DecidableEq

/-- One compositing step of CombineScreens, recorded abstractly:
clearing, scaling the primary screen through the hybrid scaler, copying
the scaled hybrid buffer, or copying one un-magnified screen. -/
inductive CompOp where
  | clear
  | scaleHybrid (primary : Screen)
  | copyHybrid (tag : TransTag)
  | copyScreen (src : Screen) (tag : TransTag)
deriving DecidableEq

/-- The small-screen translation belonging to each screen. -/
def screenTransTag : Screen → TransTag
  | Screen.top => TransTag.topT
  | Screen.bottom => TransTag.bottomT

/-- The sequence of compositing steps CombineScreens performs
(software.cpp lines 213-276), dispatching on the layout category. -/
def combineScreensOps (layout : ScreenLayout)
    (mode : HybridSideScreenDisplay) : List CompOp :=
  [CompOp.clear] ++
  (if IsHybridLayout layout then
    (let primary :=
      if layout = ScreenLayout.HybridTop ∨ layout = ScreenLayout.FlippedHybridTop
      then Screen.top else Screen.bottom
    [CompOp.scaleHybrid primary, CompOp.copyHybrid TransTag.hybridT] ++
    (if mode = HybridSideScreenDisplay.Both ∨ layout = ScreenLayout.HybridBottom ∨
        layout = ScreenLayout.FlippedHybridBottom then
      [CompOp.copyScreen Screen.top TransTag.topT]
    else []) ++
    (if mode = HybridSideScreenDisplay.Both ∨ layout = ScreenLayout.HybridTop ∨
        layout = ScreenLayout.FlippedHybridTop then
      [CompOp.copyScreen Screen.bottom TransTag.bottomT]
    else []))
  else if IsLargeScreenLayout layout then
    (if layout = ScreenLayout.LargescreenTop ∨
        layout = ScreenLayout.FlippedLargescreenTop then
      [CompOp.scaleHybrid Screen.top, CompOp.copyHybrid TransTag.topT,
        CompOp.copyScreen Screen.bottom TransTag.bottomT]
    else
      [CompOp.scaleHybrid Screen.bottom, CompOp.copyHybrid TransTag.bottomT,
        CompOp.copyScreen Screen.top TransTag.topT])
  else
    (if layout ≠ ScreenLayout.BottomOnly then
      [CompOp.copyScreen Screen.top TransTag.topT]
    else []) ++
    (if layout ≠ ScreenLayout.TopOnly then
      [CompOp.copyScreen Screen.bottom TransTag.bottomT]
    else []))

/-- The un-magnified screen copies of a compositing trace, with the
translation each one targets. -/
def unmagnifiedCopies (ops : List CompOp) : List (Screen × TransTag) :=
  ops.filterMap fun op =>
    match op with
    | CompOp.copyScreen src tag => some (src, tag)
    | _ => none

/-- C4: in every hybrid layout, side-screen mode Both copies both
un-magnified screens at their small-screen translations, and mode
FocusedOnly copies exactly the non-primary companion screen at its
small-screen translation; in both modes the magnified primary is
scaled and copied in addition. -/
theorem hybrid_side_screen_copies (layout : ScreenLayout)
    (h : IsHybridLayout layout = true) :
    unmagnifiedCopies (combineScreensOps layout HybridSideScreenDisplay.Both)
      = [(Screen.top, TransTag.topT), (Screen.bottom, TransTag.bottomT)] ∧
    unmagnifiedCopies (combineScreensOps layout HybridSideScreenDisplay.FocusedOnly)
      = (companionScreen layout).toList.map (fun s => (s, screenTransTag s)) ∧
    (∀ mode, ∃ p, primaryScreen layout = some p ∧
      CompOp.scaleHybrid p ∈ combineScreensOps layout mode ∧
      CompOp.copyHybrid TransTag.hybridT ∈ combineScreensOps layout mode) := by
  cases layout <;>
    first
    | exact absurd h (by decide)
    | (refine ⟨by decide, by decide, fun mode => ?_⟩
       cases mode <;>
         first
         | (refine ⟨Screen.top, ?_, ?_, ?_⟩ <;> decide)
         | (refine ⟨Screen.bottom, ?_, ?_, ?_⟩ <;> decide))

/-- Concrete instance of the side-screen rule at HybridTop: with mode
Both, both screens are copied un-magnified; with FocusedOnly, only the
bottom screen (the companion of the top primary). -/
theorem hybrid_side_screen_copies_witness :
    unmagnifiedCopies (combineScreensOps ScreenLayout.HybridTop
        HybridSideScreenDisplay.Both)
      = [(Screen.top, TransTag.topT), (Screen.bottom, TransTag.bottomT)] ∧
    unmagnifiedCopies (combineScreensOps ScreenLayout.HybridTop
        HybridSideScreenDisplay.FocusedOnly)
      = (companionScreen ScreenLayout.HybridTop).toList.map
          (fun s => (s, screenTransTag s)) := by
  have h := hybrid_side_screen_copies ScreenLayout.HybridTop (by decide)
  exact ⟨h.1, h.2.1⟩

/-- Modelled from the spec: fixed width of one emulated source screen
(a DS screen, 256 pixels). -/
def NDS_SCREEN_WIDTH : ℤ := 256

/-- Modelled from the spec: fixed height of one emulated source screen
(a DS screen, 192 pixels). -/
def NDS_SCREEN_HEIGHT : ℤ := 192

/-- Modelled from the spec: the clear value OutputBuffer.Clear writes
to every pixel of the output buffer. -/
def clearValue : ℕ := 0

/-- Modelled from the spec: the per-layout precomputed data of
ScreenLayoutData consumed by CombineScreens, declared outside the
excerpted sources: the three destination translations, the hybrid
magnification ratio, and the side-screen display mode. -/
structure LayoutGeometry where
  topTrans : ℤ × ℤ
  bottomTrans : ℤ × ℤ
  hybridTrans : ℤ × ℤ
  ratioHybrid : ℤ
  sideMode : HybridSideScreenDisplay

/-- Membership of a point in a w-by-h rectangle translated to t. -/
def inRect (t : ℤ × ℤ) (w h x y : ℤ) : Prop :=
  t.1 ≤ x ∧ x < t.1 + w ∧ t.2 ≤ y ∧ y < t.2 + h

instance (t : ℤ × ℤ) (w h x y : ℤ) : Decidable (inRect t w h x y) :=
  inferInstanceAs (Decidable (t.1 ≤ x ∧ x < t.1 + w ∧ t.2 ≤ y ∧ y < t.2 + h))

/-- Modelled from the spec: the pixel-level effect of the OutputBuffer
copy helpers (CopyDirect and CopyRows), which both write the full
source rectangle at the destination translation; they differ only in
memory traversal, which the pixel-level view does not see. -/
def copyRect (dst src : Buf) (t : ℤ × ℤ) (w h : ℤ) : Buf :=
  fun x y => if inRect t w h x y then src (x - t.1) (y - t.2) else dst x y

/-- The pixel-level effect of CombineScreens (software.cpp lines
213-276): clear the output buffer, then dispatch on the layout
category.  The scaled hybrid image stands in for the output of
hybridScaler.Scale; the prior buffer is overwritten by the clear. -/
def combineScreensBuf (geo : LayoutGeometry) (layout : ScreenLayout)
    (topSrc botSrc hybridScaled : Buf) (_prior : Buf) : Buf :=
  let cleared : Buf := fun _ _ => clearValue
  let hw := NDS_SCREEN_WIDTH * geo.ratioHybrid
  let hh := NDS_SCREEN_HEIGHT * geo.ratioHybrid
  if IsHybridLayout layout then
    let b1 := copyRect cleared hybridScaled geo.hybridTrans hw hh
    let b2 :=
      if geo.sideMode = HybridSideScreenDisplay.Both ∨
          layout = ScreenLayout.HybridBottom ∨
          layout = ScreenLayout.FlippedHybridBottom then
        copyRect b1 topSrc geo.topTrans NDS_SCREEN_WIDTH NDS_SCREEN_HEIGHT
      else b1
    if geo.sideMode = HybridSideScreenDisplay.Both ∨
        layout = ScreenLayout.HybridTop ∨
        layout = ScreenLayout.FlippedHybridTop then
      copyRect b2 botSrc geo.bottomTrans NDS_SCREEN_WIDTH NDS_SCREEN_HEIGHT
    else b2
  else if IsLargeScreenLayout layout then
    if layout = ScreenLayout.LargescreenTop ∨
        layout = ScreenLayout.FlippedLargescreenTop then
      copyRect (copyRect cleared hybridScaled geo.topTrans hw hh)
        botSrc geo.bottomTrans NDS_SCREEN_WIDTH NDS_SCREEN_HEIGHT
    else
      copyRect (copyRect cleared hybridScaled geo.bottomTrans hw hh)
        topSrc geo.topTrans NDS_SCREEN_WIDTH NDS_SCREEN_HEIGHT
  else
    let b1 :=
      if layout ≠ ScreenLayout.BottomOnly then
        copyRect cleared topSrc geo.topTrans NDS_SCREEN_WIDTH NDS_SCREEN_HEIGHT
      else cleared
    if layout ≠ ScreenLayout.TopOnly then
      copyRect b1 botSrc geo.bottomTrans NDS_SCREEN_WIDTH NDS_SCREEN_HEIGHT
    else b1

/-- C6: for the TopOnly layout, after CombineScreens every pixel
outside the top screen destination rectangle equals the clear value,
whatever the buffer held before the call. -/
theorem topOnly_outside_is_clear (geo : LayoutGeometry)
    (topSrc botSrc hybridScaled prior : Buf) (x y : ℤ)
    (h : ¬inRect geo.topTrans NDS_SCREEN_WIDTH NDS_SCREEN_HEIGHT x y) :
    combineScreensBuf geo ScreenLayout.TopOnly topSrc botSrc hybridScaled prior x y
      = clearValue := by
  simp [combineScreensBuf, copyRect, IsHybridLayout, IsLargeScreenLayout, h]

/-- Concrete instance of the TopOnly clearing contract: with the top
screen at the origin, the pixel (300, 0) right of the screen is clear
even over a prior buffer filled with 7. -/
theorem topOnly_outside_is_clear_witness :
    combineScreensBuf
      ⟨(0, 0), (0, 192), (0, 0), 1, HybridSideScreenDisplay.Both⟩
      ScreenLayout.TopOnly
      (fun _ _ => 5) (fun _ _ => 6) (fun _ _ => 8) (fun _ _ => 7) 300 0
      = clearValue :=
  topOnly_outside_is_clear _ _ _ _ _ 300 0 (by decide)

/-- The full DrawCursor entry (software.cpp lines 135-211): bail out on
the TopOnly layout; otherwise clamp the cursor box corners to the
buffer, take the box center, select the scale, and run the pixel loop.
The transformed touch point stands for the product of the bottom
screen matrix with the clamped touch position. -/
def drawCursorBuf (layout : ScreenLayout) (ratioHybrid W H : ℤ)
    (transformedTouch : ℤ × ℤ) (cursorSize : ℤ) (old : Buf) : Buf :=
  if layout = ScreenLayout.TopOnly then
    old
  else
    let startX := min (max (transformedTouch.1 - cursorSize) 0) W
    let startY := min (max (transformedTouch.2 - cursorSize) 0) H
    let endX := min (max (transformedTouch.1 + cursorSize) 0) W
    let endY := min (max (transformedTouch.2 + cursorSize) 0) H
    let cx := (startX + endX) / 2
    let cy := (startY + endY) / 2
    drawCursorCore W H cx cy (cursorScale layout ratioHybrid) old

/-- The cursor step of the software Render path (software.cpp lines
79-81): DrawCursor runs only when the lid is open and the cursor is
marked visible. -/
def renderCursorStep (lidClosed cursorVisible : Bool)
    (layout : ScreenLayout) (ratioHybrid W H : ℤ)
    (transformedTouch : ℤ × ℤ) (cursorSize : ℤ) (buf : Buf) : Buf :=
  if !lidClosed && cursorVisible then
    drawCursorBuf layout ratioHybrid W H transformedTouch cursorSize buf
  else buf

/-- C10: when the layout is TopOnly, DrawCursor returns immediately and
leaves every pixel unchanged, even when the lid is open and the cursor
is marked visible, because the guard sits inside DrawCursor itself. -/
theorem drawCursor_topOnly_noop (ratioHybrid W H : ℤ)
    (transformedTouch : ℤ × ℤ) (cursorSize : ℤ) (old : Buf) :
    drawCursorBuf ScreenLayout.TopOnly ratioHybrid W H
        transformedTouch cursorSize old = old ∧
    renderCursorStep false true ScreenLayout.TopOnly ratioHybrid W H
        transformedTouch cursorSize old = old ∧
    (∀ x y, drawCursorBuf ScreenLayout.TopOnly ratioHybrid W H
        transformedTouch cursorSize old x y = old x y) :=
  ⟨rfl, rfl, fun _ _ => rfl⟩

/-- Channel swap of one ARGB8888 pixel into ABGR8888 order, the
pixel-level effect of conv_argb8888_abgr8888: alpha and green keep
their lanes, red and blue trade places. -/
def convArgbAbgr (p : ℕ) : ℕ :=
  let a := p / 2 ^ 24 % 256
  let r := p / 2 ^ 16 % 256
  let g := p / 2 ^ 8 % 256
  let b := p % 256
  a * 2 ^ 24 + b * 2 ^ 16 + g * 2 ^ 8 + r

/-- Outcome of the tail of the software Render path (software.cpp lines
83-99): the buffer handed to retro video refresh and the optional copy
built afterwards for the Tracy profiler. -/
structure RenderOutput where
  delivered : Buf
  tracyFrame : Option Buf

/-- The delivery tail of Render (software.cpp lines 83-99): the video
refresh callback receives the composited buffer itself; only when the
profiler is connected is a separate channel-swapped copy produced, and
only after delivery. -/
def renderPresent (composited : Buf) (profilerAvailable : Bool) : RenderOutput :=
  { delivered := composited
    tracyFrame :=
      if profilerAvailable then
        some (fun x y => convArgbAbgr (composited x y))
      else
        none }

/-- C9 counterexample: for a composited buffer holding the pixel
0xFF112233, the buffer delivered to the presentation callback still
holds 0xFF112233, not the channel-swapped 0xFF332211; the swap touches
only the profiler copy. -/
theorem render_delivery_not_swapped :
    (renderPresent (fun _ _ => 0xFF112233) true).delivered 0 0 = 0xFF112233 ∧
    convArgbAbgr 0xFF112233 = 0xFF332211 ∧
    (renderPresent (fun _ _ => 0xFF112233) true).delivered 0 0
      ≠ convArgbAbgr 0xFF112233 := by
  refine ⟨rfl, by norm_num [convArgbAbgr], ?_⟩
  show (0xFF112233 : ℕ) ≠ convArgbAbgr 0xFF112233
  norm_num [convArgbAbgr]

/-- C9 amended: the software Render path delivers the composited
buffer to the presentation callback in the internal composition order,
unswapped; the channel-swapped copy exists only for the profiler, is
built after delivery, and is absent when the profiler is not
connected. -/
theorem render_present_order (composited : Buf) (x y : ℤ) :
    (renderPresent composited true).delivered x y = composited x y ∧
    ((renderPresent composited true).tracyFrame.map (fun f => f x y))
      = some (convArgbAbgr (composited x y)) ∧
    (renderPresent composited false).tracyFrame = none :=
  ⟨rfl, rfl, rfl⟩

/- Fragment-shader model.  GLSL floats are modelled as rationals: the
claims about the shader concern order comparisons and the exact-edge
cases, which rationals represent exactly. -/

/-- An RGB color sampled from the screen texture. -/
structure Rgb where
  r : ℚ
  g : ℚ
  b : ℚ
deriving DecidableEq

/-- An RGBA output color of the fragment shader. -/
structure Rgba where
  r : ℚ
  g : ℚ
  b : ℚ
  a : ℚ
deriving DecidableEq

/-- The uniform block fields the fragment shader reads for the cursor
(melondsds.frag lines 2-9): the cursor rectangle in normalized
coordinates (left, top, right, bottom) and the visibility flag. -/
structure FragUniform where
  left : ℚ
  top : ℚ
  right : ℚ
  bottom : ℚ
  cursorVisible : Bool
deriving DecidableEq

/-- The half-open containment test of the fragment shader
(melondsds.frag lines 24-26): at least the left and top edges, strictly
below the right and bottom edges. -/
def fragInside (u : FragUniform) (tx ty : ℚ) : Bool :=
  decide (u.left ≤ tx) && decide (tx < u.right) &&
    decide (u.top ≤ ty) && decide (ty < u.bottom)

/-- The GLSL epsilon 1e-6 used as minimum rectangle size and bucket
bias, modelled as the rational it denotes. -/
def fragEps : ℚ := 1 / 1000000

/-- The fragment shader main function (melondsds.frag lines 16-68) on
one fragment: guard on visibility and the bottom half, test half-open
containment, normalize into the rectangle, bucket into the 5x5 grid
with the epsilon bias, classify, and emit the possibly recolored pixel
with channels reversed and forced full opacity. -/
def fragMain (u : FragUniform) (tx ty : ℚ) (pixel : Rgb) : Rgba :=
  let recolored :=
    if u.cursorVisible = true ∧ 1/2 ≤ ty ∧ ty ≤ 1 ∧ fragInside u tx ty = true then
      let w := max (u.right - u.left) fragEps
      let h := max (u.bottom - u.top) fragEps
      let uu := min (max ((tx - u.left) / w) 0) 1
      let vv := min (max ((ty - u.top) / h) 0) 1
      let bx := min (max ⌊uu * 5 - fragEps⌋ 0) 4
      let byv := min (max ⌊vv * 5 - fragEps⌋ 0) 4
      match shaderClassify bx byv with
      | CursorClass.white => Rgb.mk 1 1 1
      | CursorClass.black => Rgb.mk 0 0 0
      | CursorClass.untouched => pixel
    else pixel
  Rgba.mk recolored.b recolored.g recolored.r 1

/-- C7: the fragment containment test is half-open in both axes: a
fragment exactly on the left or top edge passes the test (and may be
recolored), a fragment exactly on the right or bottom edge fails it and
its pixel reaches the output unmodified, only swizzled. -/
theorem frag_half_open (u : FragUniform) (sample : Rgb)
    (hlr : u.left < u.right) (htb : u.top < u.bottom) :
    (∀ ty, u.top ≤ ty → ty < u.bottom → fragInside u u.left ty = true) ∧
    (∀ tx, u.left ≤ tx → tx < u.right → fragInside u tx u.top = true) ∧
    (∀ ty, fragInside u u.right ty = false) ∧
    (∀ tx, fragInside u tx u.bottom = false) ∧
    (∀ ty, fragMain u u.right ty sample
      = Rgba.mk sample.b sample.g sample.r 1) ∧
    (∀ tx, fragMain u tx u.bottom sample
      = Rgba.mk sample.b sample.g sample.r 1) := by
  have hr : ∀ ty, fragInside u u.right ty = false := by
    intro ty
    simp [fragInside, lt_irrefl]
  have hb : ∀ tx, fragInside u tx u.bottom = false := by
    intro tx
    simp [fragInside, lt_irrefl]
  refine ⟨?_, ?_, hr, hb, ?_, ?_⟩
  · intro ty h1 h2
    simp only [fragInside, Bool.and_eq_true, decide_eq_true_eq]
    exact ⟨⟨⟨le_refl _, hlr⟩, h1⟩, h2⟩
  · intro tx h1 h2
    simp only [fragInside, Bool.and_eq_true, decide_eq_true_eq]
    exact ⟨⟨⟨h1, h2⟩, le_refl _⟩, htb⟩
  · intro ty
    simp [fragMain, hr ty]
  · intro tx
    simp [fragMain, hb tx]

/-- Concrete instance of the half-open containment at the rectangle
with left 1/4, top 5/8, right 3/4, bottom 7/8: the point (1/4, 5/8) on
the left and top edges is inside, the point (3/4, 5/8) on the right
edge is outside. -/
theorem frag_half_open_witness :
    fragInside ⟨1/4, 5/8, 3/4, 7/8, true⟩ (1/4) (5/8) = true ∧
    fragInside ⟨1/4, 5/8, 3/4, 7/8, true⟩ (3/4) (5/8) = false := by
  have h := frag_half_open ⟨1/4, 5/8, 3/4, 7/8, true⟩ ⟨1/3, 1/5, 1/7⟩
    (by norm_num) (by norm_num)
  exact ⟨h.1 (5/8) (by norm_num) (by norm_num), h.2.2.1 (5/8)⟩

end MelonDsDs
